import Mathlib

/-!
Verification of the two-level diff engine of CodeCheckup.

The line-alignment engine (`computeLineDiff`), the similarity score
(`calculateSimilarity`) and its consumers (`compareCode` in
`src/store/useCodeStore.ts`, the editor's `lineDiffs` memo in
`src/components/CodeEditor.tsx`) are shallowly embedded below.

The character-level diff itself is produced by the external
`diff-match-patch` library (`dmp.diff_main` followed by
`dmp.diff_cleanupSemantic`), which is not part of this repository; the
alignment engine consumes it only through the similarity score.  The
embedded functions are therefore parametrised by the character-diff
(resp. similarity) function: universal claims are proved for every such
function, and concrete runs use a model of the external engine
(`charDiffModel`) that agrees with the library on the inputs evaluated
here.  JavaScript floating-point numbers are modelled as exact rationals,
and JavaScript string primitives (`trim`, `split('\n')`) are embedded as
structurally recursive functions on character lists so that concrete runs
reduce inside the kernel.
-/

/-- JavaScript `String.prototype.trim`: remove leading and trailing
whitespace.  (JavaScript trims the full Unicode whitespace class; every
string compared in this development is ASCII, where the two notions
coincide.) -/
def jsTrim (s : String) : String :=
  String.mk (((s.data.dropWhile Char.isWhitespace).reverse.dropWhile
    Char.isWhitespace).reverse)

/-- Accumulator loop for `splitLines`: `acc` holds the characters of the
current line in reverse. -/
def splitLinesAux : List Char → List Char → List String
  | [], acc => [String.mk acc.reverse]
  | c :: cs, acc =>
    if c = '\n' then String.mk acc.reverse :: splitLinesAux cs []
    else splitLinesAux cs (c :: acc)

/-- JavaScript `str.split('\n')`: in particular `"".split('\n')` is
`[""]`, never the empty array. -/
def splitLines (s : String) : List String := splitLinesAux s.data []

/-- The four tags of the `DiffType` union in `useCodeStore.ts` (line 56). -/
inductive DiffType : Type
  | equal
  | insert
  | delete
  | modify
deriving DecidableEq, Repr

/-- The `LineDiffResult` interface of `useCodeStore.ts` (lines 59-65): a
tag plus four optional fields; a field the source object literal omits is
`none`. -/
structure LineDiffResult : Type where
  type : DiffType
  originalLine : Option String := none
  modifiedLine : Option String := none
  originalIndex : Option Nat := none
  modifiedIndex : Option Nat := none
deriving DecidableEq, Repr

/-- The LCS dynamic-programming table of `computeLineDiff`
(`useCodeStore.ts` lines 72-83): `dp o mo i j` is the value `dp[i][j]`
built by the double loop, comparing trimmed lines. -/
def dp (o mo : List String) : Nat → Nat → Nat
  | 0, _ => 0
  | _ + 1, 0 => 0
  | i + 1, j + 1 =>
    if jsTrim (o.getD i "") = jsTrim (mo.getD j "") then
      dp o mo i j + 1
    else
      max (dp o mo i (j + 1)) (dp o mo (i + 1) j)
termination_by i j => (i, j)

/-- The backtracking `while (i > 0 || j > 0)` loop of `computeLineDiff`
(`useCodeStore.ts` lines 86-153).  The JavaScript loop `unshift`s each
produced entry, so the entry produced at indices `(i, j)` ends up after
everything produced later at smaller indices; `diffGo sim o mo i j` is
the list the loop leaves in `result` when started at `(i, j)`.  The
parameter `sim` stands for `calculateSimilarity` applied to the external
character-diff of the two lines (source line 107).  The branch order
mirrors the source exactly: trimmed-equal, then similarity above the
`0.3` threshold (line 109), then `dp[i - 1][j] > dp[i][j - 1]` choosing
delete (line 119), otherwise insert. -/
def diffGo (sim : String → String → ℚ) (o mo : List String) :
    Nat → Nat → List LineDiffResult
  | 0, 0 => []
  | i + 1, 0 =>
    diffGo sim o mo i 0 ++
      [{ type := .delete, originalLine := some (o.getD i ""),
         originalIndex := some i }]
  | 0, j + 1 =>
    diffGo sim o mo 0 j ++
      [{ type := .insert, modifiedLine := some (mo.getD j ""),
         modifiedIndex := some j }]
  | i + 1, j + 1 =>
    if jsTrim (o.getD i "") = jsTrim (mo.getD j "") then
      diffGo sim o mo i j ++
        [{ type := .equal, originalLine := some (o.getD i ""),
           modifiedLine := some (mo.getD j ""),
           originalIndex := some i, modifiedIndex := some j }]
    else if mkRat 3 10 < sim (o.getD i "") (mo.getD j "") then
      diffGo sim o mo i j ++
        [{ type := .modify, originalLine := some (o.getD i ""),
           modifiedLine := some (mo.getD j ""),
           originalIndex := some i, modifiedIndex := some j }]
    else if dp o mo (i + 1) j < dp o mo i (j + 1) then
      diffGo sim o mo i (j + 1) ++
        [{ type := .delete, originalLine := some (o.getD i ""),
           originalIndex := some i }]
    else
      diffGo sim o mo (i + 1) j ++
        [{ type := .insert, modifiedLine := some (mo.getD j ""),
           modifiedIndex := some j }]
termination_by i j => (i, j)

/-- `computeLineDiff` (`useCodeStore.ts` lines 68-156), parametrised by
the similarity function. -/
def computeLineDiff (sim : String → String → ℚ)
    (originalLines modifiedLines : List String) : List LineDiffResult :=
  diffGo sim originalLines modifiedLines originalLines.length
    modifiedLines.length

/-- Longest run of identical characters at the start of two character
lists (used by the character-diff model below). -/
def commonStart : List Char → List Char → List Char
  | c :: cs, d :: ds => if c = d then c :: commonStart cs ds else []
  | _, _ => []

/-- Modelled from the spec: the Character Diff Engine (spec section 4.1)
is the external `diff-match-patch` library (`dmp.diff_main` followed by
`dmp.diff_cleanupSemantic`), whose source is not in this repository.
Operations are `(kind, text)` pairs with kind `-1` = Delete, `0` = Equal,
`1` = Insert.  This model returns the empty script on two empty inputs, a
single Equal run on two equal inputs, and otherwise an Equal common
prefix, the two differing middles as one Delete and one Insert run, and
an Equal common suffix.  It satisfies the reconstruction invariant of the
spec, and it agrees with the library on every input this file evaluates
it at (inputs whose differing middles share no characters, where the
minimal edit script is exactly delete-all/insert-all and the semantic
cleanup pass is the identity). -/
def charDiffModel (a b : String) : List (Int × String) :=
  if a = b then (if a = "" then [] else [((0 : Int), a)])
  else
    let p := commonStart a.data b.data
    let a1 := a.data.drop p.length
    let b1 := b.data.drop p.length
    let s := (commonStart a1.reverse b1.reverse).reverse
    let am := a1.take (a1.length - s.length)
    let bm := b1.take (b1.length - s.length)
    (if p.isEmpty then [] else [((0 : Int), String.mk p)]) ++
    (if am.isEmpty then [] else [((-1 : Int), String.mk am)]) ++
    (if bm.isEmpty then [] else [((1 : Int), String.mk bm)]) ++
    (if s.isEmpty then [] else [((0 : Int), String.mk s)])

/-- `calculateSimilarity` (`useCodeStore.ts` lines 159-174), as a
function of the edit script the external engine returns for the two
strings: `totalLength` sums the text lengths of all operations,
`equalLength` those of kind `0`, and the result is
`equalLength / totalLength` when `totalLength > 0` and `0` otherwise.
`mkRat equalLength totalLength` is exactly that quotient (see
`calculateSimilarity_eq_div`). -/
def calculateSimilarity (diffs : List (Int × String)) : ℚ :=
  let totalLength : Nat := (diffs.map fun d => d.2.length).sum
  let equalLength : Nat := ((diffs.filter fun d => d.1 == 0).map
    fun d => d.2.length).sum
  if 0 < totalLength then mkRat equalLength totalLength else 0

/-- The similarity function the store actually uses: `calculateSimilarity`
composed with the (modelled) external character-diff engine. -/
def simModel (a b : String) : ℚ := calculateSimilarity (charDiffModel a b)

/-- Concatenation of the Equal and Delete operation texts of an edit
script: a correct script reproduces the source string this way (spec
section 3, EditOperation invariant). -/
def reconstructSource (diffs : List (Int × String)) : String :=
  String.join ((diffs.filter fun d => d.1 == 0 || d.1 == -1).map
    fun d => d.2)

/-- Concatenation of the Equal and Insert operation texts of an edit
script: a correct script reproduces the destination string this way. -/
def reconstructDest (diffs : List (Int × String)) : String :=
  String.join ((diffs.filter fun d => d.1 == 0 || d.1 == 1).map
    fun d => d.2)

/-- JavaScript `[...new Set(l)]`: drop duplicates, keeping the first
occurrence of each element. -/
def jsSetDedup (l : List Nat) : List Nat :=
  l.foldl (fun acc x => if x ∈ acc then acc else acc ++ [x]) []

/-- The pure core of the `compareCode` action (`useCodeStore.ts` lines
248-282): split both stored documents on `'\n'`, align them with
`computeLineDiff`, and derive the navigation list `diffLines` holding
`index + 1` for every entry whose type is not `'equal'`, deduplicated and
sorted ascending.  Returns the pair `(diffLines, lineDiffs)` that the
action stores; the surrounding Zustand state plumbing and the
`saveToHistory` side effect carry no further computation. -/
def compareCode (sim : String → String → ℚ)
    (originalCode modifiedCode : String) : List Nat × List LineDiffResult :=
  let originalLines := splitLines originalCode
  let modifiedLines := splitLines modifiedCode
  let diffResult := computeLineDiff sim originalLines modifiedLines
  let diffLines := diffResult.enum.filterMap fun p =>
    if p.2.type ≠ DiffType.equal then some (p.1 + 1) else none
  ((jsSetDedup diffLines).mergeSort (fun a b => a ≤ b), diffResult)

/-- The `lineDiffs` memo of `CodeEditor.tsx` (lines 81-102), parametrised
by the external character-diff pipeline `cd` (`dmp.diff_main` followed by
`dmp.diff_cleanupSemantic`, source lines 95-96).  Slot `k` of the result
models the sparse-array slot `diffs[k]`: the source loops `i` from `0` to
`maxLines - 1`, pairs `currentLines[i]` with `otherLines[i]` (missing
entries defaulting to `''`), and stores a character diff only where the
two differ.  The guard mirrors `if (!otherCode || !value) return []`. -/
def editorLineDiffs (cd : String → String → List (Int × String))
    (value otherCode : String) : List (Option (List (Int × String))) :=
  if value = "" ∨ otherCode = "" then []
  else
    let currentLines := splitLines value
    let otherLines := splitLines otherCode
    let maxLines := max currentLines.length otherLines.length
    (List.range maxLines).map fun i =>
      let currentLine := currentLines.getD i ""
      let otherLine := otherLines.getD i ""
      if currentLine ≠ otherLine then some (cd currentLine otherLine)
      else none

/-- The kind/field discipline of `LineDiffResult` entries: equal and
modify entries carry all four optional fields, insert entries only the
modified pair, delete entries only the original pair. -/
def fieldInvariant (e : LineDiffResult) : Bool :=
  match e.type with
  | .equal => e.originalLine.isSome && e.modifiedLine.isSome &&
      e.originalIndex.isSome && e.modifiedIndex.isSome
  | .modify => e.originalLine.isSome && e.modifiedLine.isSome &&
      e.originalIndex.isSome && e.modifiedIndex.isSome
  | .insert => e.modifiedLine.isSome && e.modifiedIndex.isSome &&
      e.originalLine.isNone && e.originalIndex.isNone
  | .delete => e.originalLine.isSome && e.originalIndex.isSome &&
      e.modifiedLine.isNone && e.modifiedIndex.isNone

/-! ### Structure lemmas about the backtracking loop -/

lemma diffGo_filterMap_originalIndex (sim : String → String → ℚ)
    (o mo : List String) (i j : Nat) :
    (diffGo sim o mo i j).filterMap (fun e => e.originalIndex) =
      List.range i := by
  induction i, j using diffGo.induct sim o mo with
  | case1 => simp [diffGo]
  | case2 i ih => simp [diffGo, ih, List.range_succ]
  | case3 j ih => simp [diffGo, ih]
  | case4 i j h ih =>
      rw [diffGo, if_pos h]
      simp [ih, List.range_succ]
  | case5 i j h1 h2 ih =>
      rw [diffGo, if_neg h1, if_pos h2]
      simp [ih, List.range_succ]
  | case6 i j h1 h2 h3 ih =>
      rw [diffGo, if_neg h1, if_neg h2, if_pos h3]
      simp [ih, List.range_succ]
  | case7 i j h1 h2 h3 ih =>
      rw [diffGo, if_neg h1, if_neg h2, if_neg h3]
      simp [ih]

lemma diffGo_filterMap_modifiedIndex (sim : String → String → ℚ)
    (o mo : List String) (i j : Nat) :
    (diffGo sim o mo i j).filterMap (fun e => e.modifiedIndex) =
      List.range j := by
  induction i, j using diffGo.induct sim o mo with
  | case1 => simp [diffGo]
  | case2 i ih => simp [diffGo, ih]
  | case3 j ih => simp [diffGo, ih, List.range_succ]
  | case4 i j h ih =>
      rw [diffGo, if_pos h]
      simp [ih, List.range_succ]
  | case5 i j h1 h2 ih =>
      rw [diffGo, if_neg h1, if_pos h2]
      simp [ih, List.range_succ]
  | case6 i j h1 h2 h3 ih =>
      rw [diffGo, if_neg h1, if_neg h2, if_pos h3]
      simp [ih]
  | case7 i j h1 h2 h3 ih =>
      rw [diffGo, if_neg h1, if_neg h2, if_neg h3]
      simp [ih, List.range_succ]

lemma take_succ_getD {α : Type} (l : List α) (d : α) (i : Nat)
    (h : i < l.length) : l.take (i + 1) = l.take i ++ [l.getD i d] := by
  simp only [List.take_succ, List.getElem?_eq_getElem h, Option.toList_some,
    List.getD_eq_getElem?_getD, Option.getD_some]

lemma diffGo_filterMap_originalLine (sim : String → String → ℚ)
    (o mo : List String) (i j : Nat) (hi : i ≤ o.length) :
    (diffGo sim o mo i j).filterMap (fun e => e.originalLine) =
      o.take i := by
  induction i, j using diffGo.induct sim o mo with
  | case1 => simp [diffGo]
  | case2 i ih =>
      have hlt : i < o.length := hi
      rw [diffGo, List.filterMap_append, ih (Nat.le_of_succ_le hi),
        take_succ_getD o "" i hlt]
      rfl
  | case3 j ih => simp [diffGo, ih hi]
  | case4 i j h ih =>
      have hlt : i < o.length := hi
      rw [diffGo, if_pos h, List.filterMap_append,
        ih (Nat.le_of_succ_le hi), take_succ_getD o "" i hlt]
      rfl
  | case5 i j h1 h2 ih =>
      have hlt : i < o.length := hi
      rw [diffGo, if_neg h1, if_pos h2, List.filterMap_append,
        ih (Nat.le_of_succ_le hi), take_succ_getD o "" i hlt]
      rfl
  | case6 i j h1 h2 h3 ih =>
      have hlt : i < o.length := hi
      rw [diffGo, if_neg h1, if_neg h2, if_pos h3, List.filterMap_append,
        ih (Nat.le_of_succ_le hi), take_succ_getD o "" i hlt]
      rfl
  | case7 i j h1 h2 h3 ih =>
      rw [diffGo, if_neg h1, if_neg h2, if_neg h3]
      simp [ih hi]

lemma diffGo_filterMap_modifiedLine (sim : String → String → ℚ)
    (o mo : List String) (i j : Nat) (hj : j ≤ mo.length) :
    (diffGo sim o mo i j).filterMap (fun e => e.modifiedLine) =
      mo.take j := by
  induction i, j using diffGo.induct sim o mo with
  | case1 => simp [diffGo]
  | case2 i ih => simp [diffGo, ih hj]
  | case3 j ih =>
      have hlt : j < mo.length := hj
      rw [diffGo, List.filterMap_append, ih (Nat.le_of_succ_le hj),
        take_succ_getD mo "" j hlt]
      rfl
  | case4 i j h ih =>
      have hlt : j < mo.length := hj
      rw [diffGo, if_pos h, List.filterMap_append,
        ih (Nat.le_of_succ_le hj), take_succ_getD mo "" j hlt]
      rfl
  | case5 i j h1 h2 ih =>
      have hlt : j < mo.length := hj
      rw [diffGo, if_neg h1, if_pos h2, List.filterMap_append,
        ih (Nat.le_of_succ_le hj), take_succ_getD mo "" j hlt]
      rfl
  | case6 i j h1 h2 h3 ih =>
      rw [diffGo, if_neg h1, if_neg h2, if_pos h3]
      simp [ih hj]
  | case7 i j h1 h2 h3 ih =>
      have hlt : j < mo.length := hj
      rw [diffGo, if_neg h1, if_neg h2, if_neg h3, List.filterMap_append,
        ih (Nat.le_of_succ_le hj), take_succ_getD mo "" j hlt]
      rfl

lemma length_filterMap_eq_countP {α β : Type} (f : α → Option β)
    (l : List α) :
    (l.filterMap f).length = l.countP (fun a => (f a).isSome) := by
  induction l with
  | nil => rfl
  | cons a l ih =>
      cases h : f a <;>
        simp [List.filterMap_cons, h, List.countP_cons, ih]

lemma string_join_length (l : List String) :
    (String.join l).length = (l.map String.length).sum := by
  have key : ∀ (t : List String) (s : String),
      (t.foldl (fun a b => a ++ b) s).length =
        s.length + (t.map String.length).sum := by
    intro t
    induction t with
    | nil => intro s; simp
    | cons a t ih =>
        intro s
        simp [ih, String.length_append]
        ring
  simpa [String.join] using key l ""

lemma diffGo_fieldInvariant (sim : String → String → ℚ)
    (o mo : List String) (i j : Nat) :
    ∀ e ∈ diffGo sim o mo i j, fieldInvariant e = true := by
  induction i, j using diffGo.induct sim o mo with
  | case1 => simp [diffGo]
  | case2 i ih =>
      intro e he
      rw [diffGo] at he
      rcases List.mem_append.1 he with h | h
      · exact ih e h
      · rw [List.mem_singleton.1 h]; rfl
  | case3 j ih =>
      intro e he
      rw [diffGo] at he
      rcases List.mem_append.1 he with h | h
      · exact ih e h
      · rw [List.mem_singleton.1 h]; rfl
  | case4 i j h ih =>
      intro e he
      rw [diffGo, if_pos h] at he
      rcases List.mem_append.1 he with h | h
      · exact ih e h
      · rw [List.mem_singleton.1 h]; rfl
  | case5 i j h1 h2 ih =>
      intro e he
      rw [diffGo, if_neg h1, if_pos h2] at he
      rcases List.mem_append.1 he with h | h
      · exact ih e h
      · rw [List.mem_singleton.1 h]; rfl
  | case6 i j h1 h2 h3 ih =>
      intro e he
      rw [diffGo, if_neg h1, if_neg h2, if_pos h3] at he
      rcases List.mem_append.1 he with h | h
      · exact ih e h
      · rw [List.mem_singleton.1 h]; rfl
  | case7 i j h1 h2 h3 ih =>
      intro e he
      rw [diffGo, if_neg h1, if_neg h2, if_neg h3] at he
      rcases List.mem_append.1 he with h | h
      · exact ih e h
      · rw [List.mem_singleton.1 h]; rfl

lemma diffGo_diag (sim : String → String → ℚ) (X : List String)
    (k : Nat) :
    diffGo sim X X k k = (List.range k).map (fun t =>
      { type := .equal, originalLine := some (X.getD t ""),
        modifiedLine := some (X.getD t ""),
        originalIndex := some t, modifiedIndex := some t }) := by
  induction k with
  | zero => simp [diffGo]
  | succ k ih =>
      rw [diffGo, if_pos rfl, ih, List.range_succ]
      simp

lemma diffGo_nil_original (sim : String → String → ℚ)
    (M : List String) (j : Nat) :
    diffGo sim [] M 0 j = (List.range j).map (fun t =>
      { type := .insert, modifiedLine := some (M.getD t ""),
        modifiedIndex := some t }) := by
  induction j with
  | zero => simp [diffGo]
  | succ j ih =>
      rw [diffGo, ih, List.range_succ]
      simp

/-! ### Claim theorems -/

/-- C1: Line-count conservation.  For every similarity function and every
pair of line sequences, the alignment contains exactly `original.length`
entries with `originalLine` defined and exactly `modified.length` entries
with `modifiedLine` defined, and reading the defined `originalLine`
(resp. `modifiedLine`) values in output order reproduces the original
(resp. modified) document. -/
theorem computeLineDiff_line_conservation (sim : String → String → ℚ)
    (original modified : List String) :
    (computeLineDiff sim original modified).countP
        (fun e => e.originalLine.isSome) = original.length ∧
    (computeLineDiff sim original modified).countP
        (fun e => e.modifiedLine.isSome) = modified.length ∧
    (computeLineDiff sim original modified).filterMap
        (fun e => e.originalLine) = original ∧
    (computeLineDiff sim original modified).filterMap
        (fun e => e.modifiedLine) = modified := by
  have ho := diffGo_filterMap_originalLine sim original modified
    original.length modified.length le_rfl
  have hm := diffGo_filterMap_modifiedLine sim original modified
    original.length modified.length le_rfl
  rw [List.take_length] at ho hm
  have e1 : computeLineDiff sim original modified =
      diffGo sim original modified original.length modified.length := rfl
  refine ⟨?_, ?_, ?_, ?_⟩
  · rw [e1, ← length_filterMap_eq_countP, ho]
  · rw [e1, ← length_filterMap_eq_countP, hm]
  · rw [e1, ho]
  · rw [e1, hm]

/-- C4: during backtracking, when both indices are positive, the two
candidate lines are not trimmed-equal, and their similarity strictly
exceeds the threshold `0.3`, the loop emits a Modify entry pairing
exactly those two lines and decrements both indices — the DP table does
not appear in the hypotheses, so this holds regardless of which
direction the LCS table would have preferred. -/
theorem modify_overrides_lcs (sim : String → String → ℚ)
    (o mo : List String) (i j : Nat)
    (hne : jsTrim (o.getD i "") ≠ jsTrim (mo.getD j ""))
    (hsim : mkRat 3 10 < sim (o.getD i "") (mo.getD j "")) :
    diffGo sim o mo (i + 1) (j + 1) = diffGo sim o mo i j ++
      [{ type := .modify, originalLine := some (o.getD i ""),
         modifiedLine := some (mo.getD j ""),
         originalIndex := some i, modifiedIndex := some j }] := by
  rw [diffGo, if_neg hne, if_pos hsim]

/-- Witness for C4 at the spec scenario `["foo();"]` vs `["foo(x);"]`:
similarity of the pair of lines is `6/7 > 3/10`, and the step emits the
Modify entry. -/
theorem modify_overrides_lcs_witness :
    diffGo simModel ["foo();"] ["foo(x);"] 1 1 =
      diffGo simModel ["foo();"] ["foo(x);"] 0 0 ++
        [{ type := .modify, originalLine := some "foo();",
           modifiedLine := some "foo(x);",
           originalIndex := some 0, modifiedIndex := some 0 }] :=
  modify_overrides_lcs simModel ["foo();"] ["foo(x);"] 0 0
    (by decide) (by decide)

/-- C5: every entry of the alignment satisfies the kind/field discipline:
Equal and Modify entries carry all four fields, Insert entries only
`modifiedLine`/`modifiedIndex`, Delete entries only
`originalLine`/`originalIndex`. -/
theorem computeLineDiff_entry_fields (sim : String → String → ℚ)
    (original modified : List String) (e : LineDiffResult)
    (he : e ∈ computeLineDiff sim original modified) :
    fieldInvariant e = true :=
  diffGo_fieldInvariant sim original modified original.length
    modified.length e he

/-- Witness for C5 on the one-entry alignment of `["a"]` with itself. -/
theorem computeLineDiff_entry_fields_witness :
    fieldInvariant ({ type := .equal, originalLine := some "a",
                      modifiedLine := some "a", originalIndex := some 0,
                      modifiedIndex := some 0 }) = true :=
  computeLineDiff_entry_fields simModel ["a"] ["a"] _
    (by simp +decide [computeLineDiff, diffGo])

/-- C6: within the output sequence, the defined `originalIndex` values
are strictly increasing in sequence order, and so are the defined
`modifiedIndex` values. -/
theorem computeLineDiff_monotone_indices (sim : String → String → ℚ)
    (original modified : List String) :
    ((computeLineDiff sim original modified).filterMap
        (fun e => e.originalIndex)).Pairwise (· < ·) ∧
    ((computeLineDiff sim original modified).filterMap
        (fun e => e.modifiedIndex)).Pairwise (· < ·) := by
  have e1 : computeLineDiff sim original modified =
      diffGo sim original modified original.length modified.length := rfl
  constructor
  · rw [e1, diffGo_filterMap_originalIndex]
    exact List.pairwise_lt_range _
  · rw [e1, diffGo_filterMap_modifiedIndex]
    exact List.pairwise_lt_range _

/-- C7: identity.  Aligning a document with itself yields exactly
`X.length` entries, all Equal, the one at position `k` pairing line `k`
with line `k`, in original order. -/
theorem computeLineDiff_identity (sim : String → String → ℚ)
    (X : List String) :
    computeLineDiff sim X X = (List.range X.length).map (fun k =>
      { type := .equal, originalLine := some (X.getD k ""),
        modifiedLine := some (X.getD k ""),
        originalIndex := some k, modifiedIndex := some k }) ∧
    (computeLineDiff sim X X).length = X.length ∧
    ∀ e ∈ computeLineDiff sim X X, e.type = .equal := by
  have h : computeLineDiff sim X X = (List.range X.length).map (fun k =>
      { type := .equal, originalLine := some (X.getD k ""),
        modifiedLine := some (X.getD k ""),
        originalIndex := some k, modifiedIndex := some k }) :=
    diffGo_diag sim X X.length
  refine ⟨h, ?_, ?_⟩
  · rw [h]; simp
  · rw [h]
    intro e he
    obtain ⟨t, _, rfl⟩ := List.mem_map.1 he
    rfl

/-- C8: empty-input edge cases.  With an empty original, the alignment of
a non-empty `M` is exactly `M.length` Insert entries in document order
(slot `t` carrying line `t` of `M`, and the defined `modifiedLine` values
read back `M` itself); with both inputs empty the result is empty. -/
theorem computeLineDiff_empty_original (sim : String → String → ℚ)
    (M : List String) :
    (M ≠ [] → (computeLineDiff sim [] M =
        (List.range M.length).map (fun t =>
          { type := .insert, modifiedLine := some (M.getD t ""),
            modifiedIndex := some t }) ∧
      (computeLineDiff sim [] M).length = M.length ∧
      (∀ e ∈ computeLineDiff sim [] M, e.type = .insert) ∧
      (computeLineDiff sim [] M).filterMap
        (fun e => e.modifiedLine) = M)) ∧
    computeLineDiff sim [] [] = [] := by
  have h : computeLineDiff sim [] M =
      (List.range M.length).map (fun t =>
        { type := .insert, modifiedLine := some (M.getD t ""),
          modifiedIndex := some t }) :=
    diffGo_nil_original sim M M.length
  constructor
  · intro _
    refine ⟨h, ?_, ?_, ?_⟩
    · rw [h]; simp
    · rw [h]
      intro e he
      obtain ⟨t, _, rfl⟩ := List.mem_map.1 he
      rfl
    · have hm := diffGo_filterMap_modifiedLine sim [] M 0 M.length le_rfl
      rw [List.take_length] at hm
      exact hm
  · simp [computeLineDiff, diffGo]

/-- Witness for C8 at the spec scenario `original = []`,
`modified = ["a", "b"]`: two Insert entries in order `a` then `b`, and
the both-empty case gives the empty sequence. -/
theorem computeLineDiff_empty_original_witness :
    computeLineDiff simModel [] ["a", "b"] =
      [{ type := .insert, modifiedLine := some "a",
         modifiedIndex := some 0 },
       { type := .insert, modifiedLine := some "b",
         modifiedIndex := some 1 }] ∧
    computeLineDiff simModel [] [] = [] := by
  refine ⟨?_, (computeLineDiff_empty_original simModel []).2⟩
  have h := ((computeLineDiff_empty_original simModel ["a", "b"]).1
    (by decide)).1
  rw [h]
  rfl

/-- Rewriting `calculateSimilarity` with explicit rational division, as in
the source (`equalLength / totalLength`): `mkRat` is exactly that
quotient. -/
lemma calculateSimilarity_eq_div (diffs : List (Int × String)) :
    calculateSimilarity diffs =
      if 0 < (diffs.map fun d => d.2.length).sum then
        (((((diffs.filter fun d => d.1 == 0).map
            fun d => d.2.length).sum : ℕ) : ℚ)) /
          ((((diffs.map fun d => d.2.length).sum : ℕ)) : ℚ)
      else 0 := by
  rw [calculateSimilarity]
  split
  · rw [Rat.mkRat_eq_div, Int.cast_natCast]
  · rfl

/-- C2 counterexample: the character diff of two empty strings is the
empty edit script (`diff_main` returns `[]` for two equal empty inputs),
on which `calculateSimilarity` takes the `totalLength > 0 ? ... : 0`
guard's else branch and returns `0`, not `1`. -/
theorem similarity_both_empty_cex :
    charDiffModel "" "" = [] ∧ simModel "" "" = 0 ∧ simModel "" "" ≠ 1 :=
  ⟨rfl, rfl, by decide⟩

/-- C2 amended: for any edit script that reconstructs the empty source
and empty destination (as every correct diff of `("", "")` must), every
Equal-kind text is empty, so `calculateSimilarity` returns `0` — the
`totalLength > 0 ? ... : 0` guard yields `0`, never `1`. -/
theorem similarity_empty_eq_zero (d : List (Int × String))
    (hs : reconstructSource d = "") (hd : reconstructDest d = "") :
    calculateSimilarity d = 0 := by
  rw [reconstructSource] at hs
  have h1 : (((d.filter fun p => p.1 == 0 || p.1 == -1).map
      fun p => p.2).map String.length).sum = 0 := by
    rw [← string_join_length, hs]
    rfl
  have heq : ((d.filter fun p => p.1 == 0).map
      fun p => p.2.length).sum = 0 := by
    rw [List.sum_eq_zero_iff]
    intro x hx
    obtain ⟨p, hp, rfl⟩ := List.mem_map.1 hx
    have hmem := List.mem_filter.1 hp
    exact List.sum_eq_zero_iff.1 h1 _ (List.mem_map.2
      ⟨p.2, List.mem_map.2 ⟨p, List.mem_filter.2
        ⟨hmem.1, by simp [hmem.2]⟩, rfl⟩, rfl⟩)
  have hfin : calculateSimilarity d =
      if 0 < (d.map fun p => p.2.length).sum then
        mkRat (((d.filter fun p => p.1 == 0).map
            fun p => p.2.length).sum : ℕ)
          ((d.map fun p => p.2.length).sum)
      else 0 := rfl
  rw [hfin, heq]
  split <;> simp

/-- Witness for the amended C2 at the concrete script of `("", "")`. -/
theorem similarity_empty_eq_zero_witness :
    calculateSimilarity (charDiffModel "" "") = 0 :=
  similarity_empty_eq_zero (charDiffModel "" "") (by decide) (by decide)

/-- C3 counterexample: at `original = ["a"]`, `modified = ["b"]` the
backtracking step at `(1, 1)` meets the tie conditions — lines not
trimmed-equal, similarity `0 ≤ 3/10`, `dp[0][1] = dp[1][0]` — yet the
emitted entry is the Insert (modified index decremented), not the Delete
the claim predicts: the output is `[Delete "a", Insert "b"]`, while a
Delete-emitting tie step would have produced
`diffGo 0 1 ++ [Delete "a"] = [Insert "b", Delete "a"]`. -/
theorem tie_prefers_delete_cex :
    jsTrim "a" ≠ jsTrim "b" ∧
    simModel "a" "b" ≤ mkRat 3 10 ∧
    dp ["a"] ["b"] 0 1 = dp ["a"] ["b"] 1 0 ∧
    computeLineDiff simModel ["a"] ["b"] =
      [{ type := .delete, originalLine := some "a",
         originalIndex := some 0 },
       { type := .insert, modifiedLine := some "b",
         modifiedIndex := some 0 }] ∧
    diffGo simModel ["a"] ["b"] 1 1 ≠
      diffGo simModel ["a"] ["b"] 0 1 ++
        [{ type := .delete, originalLine := some "a",
           originalIndex := some 0 }] := by
  refine ⟨by decide, by decide, by simp [dp], ?_, ?_⟩
  · simp +decide [computeLineDiff, diffGo, dp]
  · simp +decide [diffGo, dp]

/-- C3 amended: in the tie case — both indices positive, lines not
trimmed-equal, similarity at or below the threshold, and
`dp[i-1][j] = dp[i][j-1]` — the `dp[i-1][j] > dp[i][j-1]` test fails, so
the else branch emits an Insert (modified index decremented): ties favor
Insert, not Delete. -/
theorem tie_emits_insert (sim : String → String → ℚ)
    (o mo : List String) (i j : Nat)
    (hne : jsTrim (o.getD i "") ≠ jsTrim (mo.getD j ""))
    (hsim : sim (o.getD i "") (mo.getD j "") ≤ mkRat 3 10)
    (htie : dp o mo i (j + 1) = dp o mo (i + 1) j) :
    diffGo sim o mo (i + 1) (j + 1) = diffGo sim o mo (i + 1) j ++
      [{ type := .insert, modifiedLine := some (mo.getD j ""),
         modifiedIndex := some j }] := by
  rw [diffGo, if_neg hne, if_neg (not_lt.2 hsim), if_neg (by omega)]

/-- Witness for the amended C3 at `["a"]` vs `["b"]`. -/
theorem tie_emits_insert_witness :
    diffGo simModel ["a"] ["b"] 1 1 = diffGo simModel ["a"] ["b"] 1 0 ++
      [{ type := .insert, modifiedLine := some "b",
         modifiedIndex := some 0 }] :=
  tie_emits_insert simModel ["a"] ["b"] 0 0 (by decide) (by decide)
    (by simp [dp])

/-- C10: at the public `compareCode` boundary, when both stored documents
are the empty string, splitting on `'\n'` yields `[""]` on both sides, so
the stored `lineDiffs` is the single Equal entry pairing two empty lines
at index `0`, and the stored `diffLines` navigation list is empty — not
an empty entry sequence. -/
theorem compareCode_both_empty (sim : String → String → ℚ) :
    compareCode sim "" "" =
      ([], [{ type := .equal, originalLine := some "",
              modifiedLine := some "", originalIndex := some 0,
              modifiedIndex := some 0 }]) := by
  have h : computeLineDiff sim [""] [""] =
      [{ type := .equal, originalLine := some "", modifiedLine := some "",
         originalIndex := some 0, modifiedIndex := some 0 }] := by
    have e1 : computeLineDiff sim [""] [""] = diffGo sim [""] [""] 1 1 :=
      rfl
    rw [e1, diffGo, if_pos rfl, diffGo]
    rfl
  have e2 : compareCode sim "" "" =
      ((jsSetDedup ((computeLineDiff sim [""] [""]).enum.filterMap
          fun p => if p.2.type ≠ DiffType.equal then some (p.1 + 1)
            else none)).mergeSort (fun a b => a ≤ b),
       computeLineDiff sim [""] [""]) := rfl
  rw [e2, h]
  have e3 : jsSetDedup ((([{ type := .equal, originalLine := some "",
                             modifiedLine := some "",
                             originalIndex := some 0,
                             modifiedIndex := some 0 }] :
      List LineDiffResult)).enum.filterMap
        fun p => if p.2.type ≠ DiffType.equal then some (p.1 + 1)
          else none) = [] := rfl
  rw [e3, List.mergeSort_nil]

/-- Entries of the alignment with a defined `originalIndex` index into
the original document. -/
lemma mem_originalIndex_lt (sim : String → String → ℚ)
    (o mo : List String) (e : LineDiffResult) (oi : Nat)
    (he : e ∈ computeLineDiff sim o mo)
    (hoi : e.originalIndex = some oi) : oi < o.length := by
  have hmem : oi ∈ (diffGo sim o mo o.length mo.length).filterMap
      (fun e => e.originalIndex) := List.mem_filterMap.2 ⟨e, he, hoi⟩
  rw [diffGo_filterMap_originalIndex] at hmem
  exact List.mem_range.1 hmem

/-- C9 amended: the character diffs the editor computes for highlighting
are keyed by raw line position, not by the alignment's Modify pairing.
For every Modify entry of the alignment with `originalIndex = oi`, the
diff the editor holds at that entry's display row `oi` is the character
diff of `currentLines[oi]` against `otherLines[oi]` — the same-index
pairing — when those positional lines differ, and nothing otherwise;
it coincides with the character diff of the entry's own
`originalLine`/`modifiedLine` pair only when the entry's two indices
pick the same positional pair. -/
theorem editor_diff_is_positional
    (cd : String → String → List (Int × String))
    (sim : String → String → ℚ) (value other : String)
    (hv : value ≠ "") (ho : other ≠ "") (e : LineDiffResult) (oi : Nat)
    (he : e ∈ computeLineDiff sim (splitLines value) (splitLines other))
    (htype : e.type = .modify) (hoi : e.originalIndex = some oi) :
    (editorLineDiffs cd value other).getD oi none =
      if (splitLines value).getD oi "" ≠ (splitLines other).getD oi ""
      then some (cd ((splitLines value).getD oi "")
        ((splitLines other).getD oi ""))
      else none := by
  have hlt : oi < (splitLines value).length :=
    mem_originalIndex_lt sim (splitLines value) (splitLines other)
      e oi he hoi
  have hk : oi < max (splitLines value).length
      (splitLines other).length :=
    lt_of_lt_of_le hlt (le_max_left _ _)
  have hguard : ¬(value = "" ∨ other = "") := not_or.2 ⟨hv, ho⟩
  simp only [editorLineDiffs, if_neg hguard]
  rw [List.getD_eq_getElem?_getD, List.getElem?_map,
    List.getElem?_range hk]
  rfl

/-- C9 counterexample: with documents `"zzz\nabcd"` and `"abce"`, the
alignment pairs line 1 of the original (`"abcd"`) with line 0 of the
modified (`"abce"`) as a Modify entry, but the editor's highlighting memo
never computes the character diff of that pair: at the entry's display
row 1 it holds the diff of `"abcd"` against `""` (the positional
opposite), and the pair's own diff appears nowhere in the memo. -/
theorem editor_diff_keyed_to_modify_cex :
    splitLines "zzz\nabcd" = ["zzz", "abcd"] ∧
    ({ type := .modify, originalLine := some "abcd",
       modifiedLine := some "abce", originalIndex := some 1,
       modifiedIndex := some 0 } : LineDiffResult) ∈
      computeLineDiff simModel (splitLines "zzz\nabcd")
        (splitLines "abce") ∧
    charDiffModel "abcd" "abce" =
      [((0 : Int), "abc"), ((-1 : Int), "d"), ((1 : Int), "e")] ∧
    (editorLineDiffs charDiffModel "zzz\nabcd" "abce").getD 1 none =
      some [((-1 : Int), "abcd")] ∧
    some (charDiffModel "abcd" "abce") ∉
      editorLineDiffs charDiffModel "zzz\nabcd" "abce" := by
  refine ⟨by decide, ?_, by decide, by decide, by decide⟩
  have hs1 : splitLines "zzz\nabcd" = ["zzz", "abcd"] := rfl
  have hs2 : splitLines "abce" = ["abce"] := rfl
  rw [hs1, hs2]
  simp +decide [computeLineDiff, diffGo, dp]

/-- Witness for the amended C9 at the counterexample documents: the
editor's diff at the Modify entry's row 1 is the positional one. -/
theorem editor_diff_is_positional_witness :
    (editorLineDiffs charDiffModel "zzz\nabcd" "abce").getD 1 none =
      if (splitLines "zzz\nabcd").getD 1 "" ≠ (splitLines "abce").getD 1 ""
      then some (charDiffModel ((splitLines "zzz\nabcd").getD 1 "")
        ((splitLines "abce").getD 1 ""))
      else none :=
  editor_diff_is_positional charDiffModel simModel "zzz\nabcd" "abce"
    (by decide) (by decide)
    ({ type := .modify, originalLine := some "abcd",
       modifiedLine := some "abce", originalIndex := some 1,
       modifiedIndex := some 0 }) 1
    (by
      have hs1 : splitLines "zzz\nabcd" = ["zzz", "abcd"] := rfl
      have hs2 : splitLines "abce" = ["abce"] := rfl
      rw [hs1, hs2]
      simp +decide [computeLineDiff, diffGo, dp]) rfl rfl
